import Mathlib

/-!
Verification development for the research-pipeline-sdk orchestration engine.

This file gives a shallow embedding, in Lean, of the engine's core components
(`src/utils/retry.ts`, `src/core/pipeline.ts`, `src/steps/track.ts`,
`src/steps/parallel.ts`, `src/steps/flowControl.ts`, `src/utils/merge.ts`)
and proves or refutes the specification claims about them.

Modelling conventions, used uniformly below:
* JavaScript numbers that the claims reason about are modelled as `ℚ`
  (delays, backoff factors, confidences, weights, merged numeric data).
* A promise that can reject is modelled as `Except RError A`; `Except.error`
  is a rejection carrying the thrown error, `Except.ok` a resolution.
* JS objects used as ordered string-keyed maps (`data`, `evaluations`,
  `tracks`, weight maps) are modelled as association lists in insertion
  order; assignment `obj[k] = v` is the `upsert` function, which overwrites
  in place when the key exists and appends otherwise, matching JS key order.
* The reserved data keys (`tracks`, `evaluations`, `iterations`,
  `parallelMerged`) are carried as separate typed fields of `DataBag`;
  all other data keys live in `DataBag.entries`.
* Wall-clock timestamps are irrelevant to every claim; `Date` values are
  dropped and "a timestamp was written" is tracked by counters where a claim
  talks about it (timer clearing, `endTime` stamping).
* Error normalization (`isResearchError` branches): every thrown value in the
  model is already a typed `RError`, on which normalization is the identity,
  so the normalizing branches collapse; the structured fields kept are the
  ones the engine itself consults (`code`, `step`, `retry`, `message`).
-/

namespace RPSdk

/-- JS values as far as the merge logic inspects them: numbers, strings, the
`undefined` sentinel the resolver can return, and NaN (produced by JS numeric
arithmetic on non-numbers). -/
inductive Value where
  | num (q : ℚ)
  | str (s : String)
  | undefined
  | nan
deriving DecidableEq, Repr

/-- Typed research error (`src/types/errors.ts`, `BaseResearchError` and its
subclasses collapsed to their discriminating fields: every subclass only
fixes `code` and a default for `retry`). -/
structure RError where
  message : String
  code : String
  step : String := ""
  retry : Bool := false
deriving DecidableEq, Repr

/-- Metadata attached to a `TrackResult` (`src/steps/track.ts`); the merger
reads `confidence` and the rest records completion/failure bookkeeping. -/
structure TrackMetadata where
  confidence : Option ℚ := none
  hasErrors : Bool := false
  errorCount : Nat := 0
  failed : Bool := false
  failedStep : Option String := none
deriving DecidableEq, Repr

/-- Error entry of a `TrackResult` (the zod `trackResultSchema` errors shape). -/
structure TrackErrEntry where
  message : String
  step : String
  code : String
deriving DecidableEq, Repr

/-- `TrackResult` from `src/steps/track.ts`. `data` holds the track's ordinary
data entries (the reserved `tracks` key of a state's data bag is modelled at
state level, see `DataBag`). `results` keeps the result fragments as opaque
values for the merger's purposes. -/
structure TrackResult where
  name : String
  results : List (String × Value) := []
  data : List (String × Value) := []
  metadata : TrackMetadata := {}
  errors : List TrackErrEntry := []
  completed : Bool := true
deriving DecidableEq, Repr

/-- One fragment of a state's `results` list. Ordinary fragments are the
single-top-field objects the merger understands (`kv`); the track and
parallel runners push their own `{track: ...}` and `{parallel: ...}`
fragments. Result fragments produced inside a track body are modelled as
`kv` fragments (a `TrackResult` stores them as key/value pairs); nested
track or parallel steps inside a track are outside every claim. -/
inductive ResultFrag where
  | kv (key : String) (value : Value)
  | trackFrag (tr : TrackResult)
  | parallelFrag (trackNames : List String) (merged : Value)
deriving DecidableEq, Repr

/-- Projection of the modelled fragments back to the key/value pairs a
`TrackResult` stores; the identity on every track body considered here. -/
def kvOnly (l : List ResultFrag) : List (String × Value) :=
  l.filterMap fun f => match f with
    | .kv k v => some (k, v)
    | _ => none

/-- One evaluation record stored under `state.data.evaluations`
(`src/steps/flowControl.ts`); the loop logic only consults `passed`. -/
structure EvalResult where
  passed : Bool
deriving DecidableEq, Repr

/-- Iteration bookkeeping stored under `state.data.iterations` by
`repeatUntil` (`src/steps/flowControl.ts`). -/
structure IterInfo where
  completed : Nat
  conditionMet : Bool
  maxReached : Bool
  iterationErrors : Bool
  errorCount : Nat
deriving DecidableEq, Repr

/-- Output of a parallel merge function: merged data entries plus an opaque
merged results value (`mergeFunction` hook of `src/steps/parallel.ts`). -/
structure MergeOut where
  data : List (String × Value) := []
  results : Value := .undefined
deriving DecidableEq, Repr

/-- The state's `data` bag. Ordinary keys are `entries`; the reserved keys
(`tracks`, `evaluations`, `iterations`, `parallelMerged`) are separate typed
fields, matching how the engine treats them specially. -/
structure DataBag where
  entries : List (String × Value) := []
  tracks : List (String × TrackResult) := []
  evaluations : List (String × EvalResult) := []
  iterations : List (String × IterInfo) := []
  parallelMerged : Option MergeOut := none
deriving DecidableEq, Repr

/-- One entry of `metadata.stepHistory` (`StepExecutionRecord` of
`src/core/pipeline.ts`, timestamps dropped). -/
structure StepRecord where
  stepName : String
  success : Bool
  error : Option RError := none
deriving DecidableEq, Repr

/-- Success statistics the parallel runner writes to `metadata.parallelTracks`. -/
structure ParallelStats where
  count : Nat
  completed : Nat
  failed : Nat
  successRate : ℚ
deriving DecidableEq, Repr

/-- The state's `metadata` record, restricted to the fields the embedded
components read or write. `endTime` abstracts the stamped date to a marker. -/
structure Metadata where
  currentStep : Option String := none
  currentTrack : Option String := none
  stepHistory : List StepRecord := []
  pipelineConfigSet : Bool := false
  endTime : Option Nat := none
  parallelTrackErrors : List (String × String) := []
  parallelTracks : Option ParallelStats := none
  parallelCompleted : Bool := false
  parallelFailed : Bool := false
  repeatUntilComplete : Bool := false
  repeatUntilConditionMet : Bool := false
  repeatUntilIterations : Nat := 0
  retryTrack : Option String := none
deriving DecidableEq, Repr

/-- `ResearchState` (`src/types/pipeline.ts`): the single value threaded
through every step. -/
structure RState where
  query : String := ""
  data : DataBag := {}
  results : List ResultFrag := []
  errors : List RError := []
  metadata : Metadata := {}
deriving DecidableEq, Repr

/-- JS object assignment `obj[k] = v` on an insertion-ordered map: overwrite
in place if the key exists, else append. -/
def upsert {α : Type} : List (String × α) → String → α → List (String × α)
  | [], k, v => [(k, v)]
  | (k', v') :: rest, k, v =>
      if k' = k then (k, v) :: rest else (k', v') :: upsert rest k v

/-- A pipeline step (`ResearchStep`): `execute` may reject, `rollback` is
optional, `retryable` feeds the retry wrapper. -/
structure EStep where
  name : String
  execute : RState → Except RError RState
  rollback : Option (RState → Except RError RState) := none
  retryable : Bool := false

/-! ## Generic retry executor (`src/utils/retry.ts`, `executeWithRetry`)

The function under test is driven by an oracle `fn : Nat → Except E A` giving
the outcome of the k-th call of the wrapped function (call 0 is the initial
attempt, call k is retry attempt k). The trace records the overall outcome,
how many times `fn` was called, and the backoff delays requested, in order
(each delay is computed and scheduled before the corresponding retry call;
in the source the same value is also passed to `onRetry`). -/

/-- Trace of one `executeWithRetry` run. -/
structure RetryTrace (E A : Type) where
  outcome : Except E A
  calls : Nat
  delays : List ℚ
deriving Repr

/-- The retry loop of `executeWithRetry` (`while (attempt < maxRetries)`),
entered after the initial call failed with a retryable error. `attempt` is
the number of retries already performed; on entry the next retry is
`attempt + 1`. The loop guard `attempt < maxRetries` is carried structurally
as `remaining = maxRetries - attempt` (zero exactly when the guard fails),
keeping the recursion kernel-reducible. -/
def retryLoop {E A : Type} (fn : Nat → Except E A) (maxRetries : Nat)
    (retryDelay backoffFactor : ℚ) (isRetryable : E → Bool) :
    (remaining : Nat) → (attempt : Nat) → (lastError : E) → (delays : List ℚ) →
    RetryTrace E A
  | 0, attempt, lastError, delays => ⟨.error lastError, attempt + 1, delays⟩
  | remaining + 1, attempt, _lastError, delays =>
    let attempt' := attempt + 1
    let delay := retryDelay * backoffFactor ^ (attempt' - 1)
    let delays' := delays ++ [delay]
    match fn attempt' with
    | .ok a => ⟨.ok a, attempt' + 1, delays'⟩
    | .error e =>
        if maxRetries ≤ attempt' ∨ isRetryable e = false then
          ⟨.error e, attempt' + 1, delays'⟩
        else
          retryLoop fn maxRetries retryDelay backoffFactor isRetryable
            remaining attempt' e delays'

/-- `executeWithRetry`: initial call (attempt 0), immediate rethrow when
`maxRetries <= 0` or the first error is non-retryable, otherwise the retry
loop. `maxRetries` is an `Int` because the source accepts any number and
compares with `<= 0`. -/
def executeWithRetry {E A : Type} (fn : Nat → Except E A) (maxRetries : Int)
    (retryDelay backoffFactor : ℚ) (isRetryable : E → Bool) : RetryTrace E A :=
  match fn 0 with
  | .ok a => ⟨.ok a, 1, []⟩
  | .error e =>
      if maxRetries ≤ 0 ∨ isRetryable e = false then ⟨.error e, 1, []⟩
      else retryLoop fn maxRetries.toNat retryDelay backoffFactor isRetryable
        maxRetries.toNat 0 e []

/-- The default retryability predicate (`error.retry === true`). -/
def defaultIsRetryable (e : RError) : Bool := e.retry

/-! ## Pipeline executor (`src/core/pipeline.ts`) -/

/-- Error-handling policy of `PipelineConfig`; `cont` is the source's
`'continue'` (a Lean keyword). -/
inductive ErrorHandling where
  | stop | cont | rollback
deriving DecidableEq, Repr

/-- `PipelineConfig`, restricted to the fields the executor consults.
Defaults are `DEFAULT_PIPELINE_CONFIG`. -/
structure PipelineConfig where
  errorHandling : ErrorHandling := .stop
  maxRetries : Int := 3
  retryDelay : ℚ := 1000
  backoffFactor : ℚ := 2
  continueOnError : Bool := false
  timeout : Nat := 300000
deriving Repr

/-- `recordStepExecution`: append a `StepExecutionRecord` to
`metadata.stepHistory` and, on failure, the error to `state.errors`. -/
def recordStepExecution (state : RState) (step : EStep) (success : Bool)
    (error : Option RError) : RState :=
  { state with
    metadata := { state.metadata with
      stepHistory := state.metadata.stepHistory ++ [⟨step.name, success, error⟩] },
    errors := match error with
      | some e => state.errors ++ [e]
      | none => state.errors }

/-- The inner `executeStep` closure of `executeStepWithErrorHandling`: run
`step.execute(state)`; on resolution record success on the updated state, on
rejection record the (normalized) failure on the unchanged input state. It
always resolves. -/
def execStepOnce (step : EStep) (state : RState) : RState :=
  match step.execute state with
  | .ok updated => recordStepExecution updated step true none
  | .error e => recordStepExecution state step false (some e)

/-- `executeStepWithErrorHandling`. The second component counts how many
times the step's `execute` was invoked (one per `executeStep` call; the
retry wrapper re-runs `executeStep` on the same captured `state`, so the
oracle is constant). On a retry-wrapper rejection the source catch returns
the original `state`. -/
def executeStepWithErrorHandling (step : EStep) (cfg : PipelineConfig)
    (state : RState) : RState × Nat :=
  if step.retryable ∧ cfg.maxRetries > 0 then
    let t := executeWithRetry (fun _k => Except.ok (execStepOnce step state))
      cfg.maxRetries cfg.retryDelay cfg.backoffFactor defaultIsRetryable
    match t.outcome with
    | .ok s => (s, t.calls)
    | .error _ => (state, t.calls)
  else
    (execStepOnce step state, 1)

/-- The dummy record `executeSteps` would read if `stepHistory` were empty;
unreachable, since `execStepOnce` always appends a record. -/
def emptyHistoryRecord : StepRecord := ⟨"", true, none⟩

/-- `executeSteps`: sequential driver with the `stop`/`rollback`/`continue`
policies. Besides the final state it returns the rollback-call trace: one
entry `(step name, state passed to rollback)` per rollback invocation, in
order. The source's `state.errors.push(researchError)` in the rollback catch
appends to an errors array freshly created by `recordStepExecution` for the
failing step, so at the value level it is an append on the current state. -/
def executeSteps (cfg : PipelineConfig) :
    List EStep → RState → RState × List (String × RState)
  | [], state => (state, [])
  | step :: rest, state =>
    let state1 := (executeStepWithErrorHandling step cfg state).1
    let latest := state1.metadata.stepHistory.getLastD emptyHistoryRecord
    if latest.success then
      executeSteps cfg rest state1
    else if cfg.errorHandling = .stop ∧ ¬cfg.continueOnError then
      (state1, [])
    else
      match step.rollback with
      | some rb =>
        if cfg.errorHandling = .rollback then
          let state2 := match rb state1 with
            | .ok s2 => s2
            | .error re => { state1 with errors := state1.errors ++ [re] }
          if ¬cfg.continueOnError then
            (state2, [(step.name, state1)])
          else
            let (st, rcalls) := executeSteps cfg rest state2
            (st, (step.name, state1) :: rcalls)
        else
          executeSteps cfg rest state1
      | none =>
        executeSteps cfg rest state1

/-- The `PipelineError` raised when the global pipeline timer expires. -/
def pipelineTimeoutError (timeout : Nat) : RError :=
  { message := "Pipeline execution timed out after " ++ toString timeout ++ "ms",
    code := "pipeline_error", step := "pipeline" }

/-- Trace of one `executePipeline` call. `returned` is the resolved state
(the function's promise always resolves: the catch swallows the race's
rejection). `timerCleared` counts `clearTimeout` calls and `endTimeWrites`
counts assignments to `metadata.endTime`, both performed in the `finally`
block. `callerErrorsAfter` is the content, after the call, of the errors
array object of the caller's `initialState`: the executor's working copy
`{...initialState, metadata: {...}}` shares that array, and the catch branch
does `state.errors.push(researchError)` on it, which the model tracks
explicitly. -/
structure PipelineRun where
  returned : RState
  timerCleared : Nat
  endTimeWrites : Nat
  callerErrorsAfter : List RError
deriving Repr

/-- `executePipeline`. The race between `executeSteps` and the timeout
promise is decided by `timedOut`: `true` means the timer fired first (its
rejection wins the race and the work-in-progress step states are abandoned,
`state` still being the pre-steps copy), `false` means the steps settled
first. `executeSteps` itself never rejects (`executeStepWithErrorHandling`
always resolves), so the timer is the only rejection source. -/
def executePipeline (initialState : RState) (steps : List EStep)
    (cfg : PipelineConfig) (timedOut : Bool) : PipelineRun :=
  let state0 : RState := { initialState with
    metadata := { initialState.metadata with pipelineConfigSet := true } }
  if timedOut then
    let e := pipelineTimeoutError cfg.timeout
    let pushed := state0.errors ++ [e]
    let final : RState :=
      { state0 with errors := pushed,
                    metadata := { state0.metadata with endTime := some 1 } }
    { returned := final, timerCleared := 1, endTimeWrites := 1,
      callerErrorsAfter := pushed }
  else
    let st := (executeSteps cfg steps state0).1
    let final : RState :=
      { st with metadata := { st.metadata with endTime := some 1 } }
    { returned := final, timerCleared := 1, endTimeWrites := 1,
      callerErrorsAfter := initialState.errors }

/-! ## Track runner (`src/steps/track.ts`, `executeTrackStep`) -/

/-- `TrackOptions`, restricted to the fields the runner consults
(`retryMaxRetries` is `retry.maxRetries`). -/
structure TrackOptions where
  name : String
  steps : List EStep
  isolate : Bool := false
  includeInResults : Bool := true
  continueOnError : Bool := false
  retryMaxRetries : Nat := 0

/-- A `ValidationError` raised by a runner's input validation. -/
def validationError (msg stepName : String) : RError :=
  { message := msg, code := "validation_error", step := stepName }

/-- The `ProcessingError` thrown when a track step fails and the track's
`continueOnError` is false. -/
def trackFailedError (trackName stepName msg : String) : RError :=
  { message := "Track " ++ trackName ++ " failed at step " ++ stepName ++ ": " ++ msg,
    code := "processing_error", step := "Track", retry := false }

/-- Map an accumulated error to the `TrackResult` error-entry shape: the
empty `step`/`code` fields stand for absent properties, replaced by the
source's fallbacks. -/
def toTrackErrEntry (currentStep : Option String) (e : RError) : TrackErrEntry :=
  { message := e.message,
    step := if e.step = "" then currentStep.getD "unknown" else e.step,
    code := if e.code = "" then "TRACK_STEP_ERROR" else e.code }

/-- The track's inner step loop: stamp `currentStep`, execute; on a step
rejection append the error to the local state and, unless the track-local
`continueOnError` allows proceeding, exit with the `ProcessingError` the
source throws (the `errorStep` fallback resolves to the step's name, which
was just stamped). -/
def runTrackSteps (continueOnError : Bool) (trackName : String) :
    List EStep → RState → RState × Option RError
  | [], current => (current, none)
  | step :: rest, current =>
    let current1 : RState := { current with
      metadata := { current.metadata with currentStep := some step.name } }
    match step.execute current1 with
    | .ok s => runTrackSteps continueOnError trackName rest s
    | .error e =>
      let current2 : RState := { current1 with errors := current1.errors ++ [e] }
      if continueOnError then
        runTrackSteps continueOnError trackName rest current2
      else
        (current2, some (trackFailedError trackName step.name e.message))

/-- The `TrackResult` built on the track's success path (which includes
tracks that accumulated step errors under `continueOnError`):
`completed` is strictly `errors.length === 0`. -/
def mkTrackResult (name : String) (currentState : RState) : TrackResult :=
  { name,
    results := kvOnly currentState.results,
    data := currentState.data.entries,
    metadata := { hasErrors := currentState.errors ≠ [],
                  errorCount := currentState.errors.length },
    errors := currentState.errors.map
      (toTrackErrEntry currentState.metadata.currentStep),
    completed := currentState.errors.isEmpty }

/-- The best-effort `TrackResult` built on the track's failure path. -/
def mkFailedTrackResult (name : String) (currentState : RState)
    (fatal : RError) : TrackResult :=
  { name,
    results := kvOnly currentState.results,
    data := currentState.data.entries,
    metadata := { failed := true,
                  failedStep := some (currentState.metadata.currentStep.getD "unknown") },
    errors := currentState.errors.map
        (toTrackErrEntry currentState.metadata.currentStep)
      ++ [{ message := fatal.message,
            step := currentState.metadata.currentStep.getD "unknown",
            code := if fatal.code = "" then "TRACK_EXECUTION_ERROR" else fatal.code }],
    completed := false }

/-- Record a `TrackResult` under the parent state's `data.tracks[name]`,
keeping the given ordinary entries, and optionally push the `{track: ...}`
result fragment. -/
def addTrackToState (state : RState) (name : String) (tr : TrackResult)
    (entries : List (String × Value)) (dataRest : DataBag)
    (includeInResults : Bool) : RState :=
  { state with
    data := { dataRest with
      entries := entries,
      tracks := upsert state.data.tracks name tr },
    results := if includeInResults then state.results ++ [.trackFrag tr]
               else state.results }

/-- Trace of one `executeTrackStep` call. `outcome` is the promise result.
`recordedFailureState` is the `updatedState` the source constructs on the
failure path ("Add the failed track to state data before throwing",
`src/steps/track.ts` lines 337-352): it is the returned value when
track-level retry is configured, and is discarded otherwise. -/
structure TrackRun where
  outcome : Except RError RState
  recordedFailureState : Option RState

/-- `executeTrackStep`. Validation failures reject before the local track
state exists. The local state starts from an empty data bag when `isolate`,
else from a shallow copy of the parent's, with fresh `results`/`errors`.
On success, the parent state gets the track's data (non-isolated) or keeps
its own (isolated), plus the `tracks[name]` slot and result fragment. On an
uncaught failure, the failed-track `updatedState` is built, then either
returned (when `retry.maxRetries > 0`, with `retryTrack` stamped) or
abandoned in favour of re-throwing the error. -/
def executeTrackStep (state : RState) (opts : TrackOptions) : TrackRun :=
  if opts.name = "" then
    ⟨.error (validationError "Track name is required" "Track"), none⟩
  else if opts.steps.isEmpty then
    ⟨.error (validationError "Track requires at least one step" "Track"), none⟩
  else
    let trackState : RState := { state with
      data := if opts.isolate then {} else state.data,
      metadata := { state.metadata with currentTrack := some opts.name },
      results := [], errors := [] }
    let (currentState, fatal) :=
      runTrackSteps opts.continueOnError opts.name opts.steps trackState
    match fatal with
    | none =>
      let tr := mkTrackResult opts.name currentState
      let entries := if opts.isolate then state.data.entries
                     else currentState.data.entries
      let dataRest := if opts.isolate then state.data else currentState.data
      ⟨.ok (addTrackToState state opts.name tr entries dataRest
              opts.includeInResults), none⟩
    | some e =>
      let tr := mkFailedTrackResult opts.name currentState e
      let updatedState :=
        addTrackToState state opts.name tr state.data.entries state.data
          opts.includeInResults
      if opts.retryMaxRetries > 0 then
        let ret := { updatedState with
          metadata := { updatedState.metadata with retryTrack := some opts.name } }
        ⟨.ok ret, some updatedState⟩
      else
        ⟨.error e, some updatedState⟩

/-! ## Parallel runner (`src/steps/parallel.ts`, `executeParallelStep`)

The fan-out is cooperative: each track's execution is a function of the
shared input state snapshot, so the settled outcomes are `tracks.map ...`.
The race against the shared timer is decided by the `timedOut` flag (the
timer fired before all tracks settled); `testEnv` models
`process.env.NODE_ENV === 'test'`. `Promise.all` rejects with the first
rejection; settlement order is abstracted to array order. -/

/-- `ParallelOptions`, restricted to the fields the runner consults. The
merge hook may itself throw, hence the `Except` result. -/
structure ParallelOptions where
  tracks : List EStep
  continueOnError : Bool := true
  timeout : Nat := 300000
  mergeFn : List (String × TrackResult) → RState → Except RError MergeOut
  includeInResults : Bool := true

/-- The `TimeoutError` raised when the parallel shared timer expires. -/
def parallelTimeoutError (timeout : Nat) : RError :=
  { message := "Parallel execution timed out after " ++ toString timeout ++ "ms",
    code := "timeout_error", step := "Parallel", retry := true }

/-- The `ParallelError` wrapping a merge-hook failure. -/
def parallelMergeError (msg : String) : RError :=
  { message := "Failed to merge parallel results: " ++ msg,
    code := "processing_error", step := "ParallelMerge", retry := false }

/-- The per-track rejection handler of the fan-out (`trackPromises` catch):
under `continueOnError` the rejection is converted into a copy of the shared
input state carrying the error and a `parallelTrackErrors` note; otherwise
it propagates (directly in a test environment, and equally outside one). -/
def handleTrackOutcome (state : RState) (continueOnError testEnv : Bool)
    (t : EStep) : Except RError RState :=
  match t.execute state with
  | .ok s => .ok s
  | .error e =>
    if testEnv ∧ ¬continueOnError then .error e
    else if continueOnError then
      .ok { state with
        errors := state.errors ++ [e],
        metadata := { state.metadata with
          parallelTrackErrors :=
            state.metadata.parallelTrackErrors ++ [(t.name, e.message)] } }
    else .error e

/-- First rejection among the settled track outcomes, in array order. -/
def firstRejection : List (Except RError RState) → Option RError
  | [] => none
  | .ok _ :: rest => firstRejection rest
  | .error e :: _ => some e

/-- All resolved states, in array order (equals the whole list when no
outcome is a rejection). -/
def resolvedStates (l : List (Except RError RState)) : List RState :=
  l.filterMap fun o => match o with
    | .ok s => some s
    | .error _ => none

/-- Accumulator of the post-settlement collection loop
(`trackStates.forEach` in the source): errors, collected `TrackResult`s,
result fragments and merged data, all built in one pass. -/
structure CollectAcc where
  allErrors : List RError
  trackResults : List (String × TrackResult)
  allResults : List ResultFrag
  mergedData : DataBag

/-- One iteration of the collection loop over a settled track state: merge
its errors and result fragments, collect the `data.tracks` entries, and copy
every non-`tracks` data key into the merged bag (reserved keys other than
`tracks` ride along as whole fields, present when non-empty). -/
def collectTrackState (acc : CollectAcc) (ts : RState) : CollectAcc :=
  { allErrors := acc.allErrors ++ ts.errors,
    trackResults := ts.data.tracks.foldl
      (fun m (p : String × TrackResult) => upsert m p.1 p.2) acc.trackResults,
    allResults := acc.allResults ++ ts.results,
    mergedData := { acc.mergedData with
      entries := ts.data.entries.foldl
        (fun m (p : String × Value) => upsert m p.1 p.2) acc.mergedData.entries,
      evaluations := if ts.data.evaluations.isEmpty then
          acc.mergedData.evaluations else ts.data.evaluations,
      iterations := if ts.data.iterations.isEmpty then
          acc.mergedData.iterations else ts.data.iterations,
      parallelMerged := match ts.data.parallelMerged with
        | some m => some m
        | none => acc.mergedData.parallelMerged } }

/-- The catch path shared by the timeout and a propagated track rejection
(`src/steps/parallel.ts` lines 330-369): clear the timer and resolve with
the input state plus the error, unless a test environment without
`continueOnError` rethrows. -/
def parallelCatch (state : RState) (continueOnError testEnv : Bool)
    (err : RError) : Except RError RState :=
  if testEnv ∧ ¬continueOnError then .error err
  else .ok { state with
    errors := state.errors ++ [err],
    metadata := { state.metadata with parallelFailed := true } }

/-- `executeParallelStep`. Validation, fan-out, race, collection, merge and
statistics, as in the source. -/
def executeParallelStep (state : RState) (opts : ParallelOptions)
    (timedOut testEnv : Bool) : Except RError RState :=
  if opts.tracks.isEmpty then
    .error (validationError "At least one track is required" "Parallel")
  else if opts.timeout = 0 then
    .error (validationError "Invalid timeout value: 0. Must be greater than 0."
      "Parallel")
  else
    let settled := opts.tracks.map
      (handleTrackOutcome state opts.continueOnError testEnv)
    if timedOut then
      parallelCatch state opts.continueOnError testEnv
        (parallelTimeoutError opts.timeout)
    else
      match firstRejection settled with
      | some err => parallelCatch state opts.continueOnError testEnv err
      | none =>
        let acc := (resolvedStates settled).foldl collectTrackState
          ⟨state.errors, [], state.results, state.data⟩
        let trackResults := acc.trackResults
        let afterMerge :=
          match opts.mergeFn trackResults state with
          | .ok m =>
            let results' := if opts.includeInResults then
                acc.allResults ++
                  [ResultFrag.parallelFrag (trackResults.map Prod.fst) m.results]
              else acc.allResults
            let entries' := m.data.foldl
              (fun es (p : String × Value) => upsert es p.1 p.2)
              acc.mergedData.entries
            (entries', results', acc.allErrors, some m)
          | .error em =>
            (acc.mergedData.entries, acc.allResults,
             acc.allErrors ++ [parallelMergeError em.message],
             (none : Option MergeOut))
        let completedTracks :=
          (trackResults.filter (fun p => p.2.completed)).length
        let total := trackResults.length
        let stats : ParallelStats :=
          { count := total, completed := completedTracks,
            failed := total - completedTracks,
            successRate := if total > 0 then (completedTracks : ℚ) / total else 0 }
        .ok { state with
          data := { acc.mergedData with
            entries := afterMerge.1,
            tracks := trackResults,
            parallelMerged := afterMerge.2.2.2 },
          results := afterMerge.2.1,
          errors := afterMerge.2.2.1,
          metadata := { state.metadata with
            parallelTracks := some stats, parallelCompleted := true } }

/-! ## Flow-control loop (`src/steps/flowControl.ts`, `repeatUntil`) -/

/-- `RepeatUntilOptions` with the source defaults. -/
structure RepeatUntilOptions where
  maxIterations : Nat := 5
  throwOnMaxIterations : Bool := false
  continueOnError : Bool := false

/-- Condition check of the loop: take the last key of
`state.data.evaluations` (JS object key order = insertion order) and test
its `passed` field. -/
def lastEvalPassed (s : RState) : Bool :=
  match s.data.evaluations.getLast? with
  | some (_, ev) => ev.passed
  | none => false

/-- The `ProcessingError` thrown when a repeated step fails and the loop's
`continueOnError` is false. -/
def repeatStepFailError (stepName : String) (iteration : Nat) (msg : String) :
    RError :=
  { message := "Step " ++ stepName ++ " failed during iteration " ++
      toString iteration ++ ": " ++ msg,
    code := "processing_error", step := "RepeatUntil", retry := false }

/-- The `MaxIterationsError` thrown when the bound is exhausted with
`throwOnMaxIterations`. -/
def maxIterationsError (maxIterations : Nat) : RError :=
  { message := "Maximum iterations (" ++ toString maxIterations ++
      ") reached without meeting condition",
    code := "max_iterations_error", step := "RepeatUntil", retry := false }

/-- The body of one iteration over `stepsToRepeat`
(`src/steps/flowControl.ts` lines 330-370). Each repeated step receives
`conditionState` — the condition step's output — as its input (line 333:
`currentState = await step.execute(conditionState)`), and only the latest
successful step's output survives as `currentState`. On a step rejection the
error is pushed; without `continueOnError` a `ProcessingError` is thrown,
which the enclosing iteration catch also pushes before rethrowing, so both
errors are accumulated. -/
def runRepeatSteps (continueOnError : Bool) (iteration : Nat)
    (conditionState : RState) :
    List EStep → RState → List RError → RState × List RError × Option RError
  | [], current, errs => (current, errs, none)
  | step :: rest, current, errs =>
    match step.execute conditionState with
    | .ok s => runRepeatSteps continueOnError iteration conditionState rest s errs
    | .error e =>
      if continueOnError then
        runRepeatSteps continueOnError iteration conditionState rest current
          (errs ++ [e])
      else
        let pe := repeatStepFailError step.name iteration e.message
        (current, errs ++ [e, pe], some pe)

/-- Result of the do-while loop proper: the working state, the accumulated
`iterationErrors`, the number of iterations entered, whether the condition
was met, and the fatal error when an iteration rethrew. -/
structure LoopAcc where
  current : RState
  iterationErrors : List RError
  iterations : Nat
  conditionMet : Bool
  fatal : Option RError

/-- The `while (iterations < maxIterations && !conditionMet)` loop. `fuel`
is the number of iterations still allowed. A condition-step rejection is
caught by the iteration catch: pushed, then rethrown unless the loop-level
`continueOnError` lets the next iteration proceed from the unchanged
state. -/
def repeatLoop (cond : EStep) (steps : List EStep) (continueOnError : Bool) :
    (fuel : Nat) → (iters : Nat) → RState → List RError → LoopAcc
  | 0, iters, current, errs => ⟨current, errs, iters, false, none⟩
  | fuel + 1, iters, current, errs =>
    let iters' := iters + 1
    match cond.execute current with
    | .error ce =>
      if continueOnError then
        repeatLoop cond steps continueOnError fuel iters' current (errs ++ [ce])
      else
        ⟨current, errs ++ [ce], iters', false, some ce⟩
    | .ok conditionState =>
      if lastEvalPassed conditionState then
        ⟨conditionState, errs, iters', true, none⟩
      else
        match runRepeatSteps continueOnError iters' conditionState steps
            current errs with
        | (cur', errs', some pe) => ⟨cur', errs', iters', false, some pe⟩
        | (cur', errs', none) =>
          repeatLoop cond steps continueOnError fuel iters' cur' errs'

/-- Trace of one run of the composite `RepeatUntil` step's executor.
`conditionRuns` counts the iterations entered (one condition-step execution
each). -/
structure RepeatRun where
  outcome : Except RError RState
  conditionRuns : Nat

/-- The executor of the composite step `repeatUntil` builds (the factory's
input validation — non-empty steps, positive `maxIterations` — happens at
creation time and is assumed by the theorems). After the loop: throw
`MaxIterationsError` when the condition was never met and
`throwOnMaxIterations` is set; otherwise record the iteration bookkeeping
under `data.iterations[conditionStep.name]`, stamp the repeat-until
metadata, and append the accumulated iteration errors to the state's error
list. -/
def repeatUntilRun (cond : EStep) (steps : List EStep)
    (opts : RepeatUntilOptions) (state : RState) : RepeatRun :=
  let acc := repeatLoop cond steps opts.continueOnError opts.maxIterations 0
    state []
  match acc.fatal with
  | some e => ⟨.error e, acc.iterations⟩
  | none =>
    if ¬acc.conditionMet ∧ opts.throwOnMaxIterations then
      ⟨.error (maxIterationsError opts.maxIterations), acc.iterations⟩
    else
      let info : IterInfo :=
        { completed := acc.iterations,
          conditionMet := acc.conditionMet,
          maxReached := decide (acc.iterations ≥ opts.maxIterations),
          iterationErrors := !acc.iterationErrors.isEmpty,
          errorCount := acc.iterationErrors.length }
      let finalState : RState := { acc.current with
        data := { acc.current.data with
          iterations := upsert acc.current.data.iterations cond.name info },
        metadata := { acc.current.metadata with
          repeatUntilComplete := true,
          repeatUntilConditionMet := acc.conditionMet,
          repeatUntilIterations := acc.iterations },
        errors := acc.current.errors ++ acc.iterationErrors }
      ⟨.ok finalState, acc.iterations⟩

/-! ## Conflict resolver / merger (`src/utils/merge.ts`, `ResultMerger`) -/

/-- Merge strategy (`ConflictResolutionOptions.strategy`); `cfirst`/`clast`
stand for `'first'`/`'last'` to keep the constructors distinct from list
functions. -/
inductive Strategy where
  | cfirst | clast | mostConfident | majority | weighted | custom
deriving DecidableEq, Repr

/-- Metadata the merger attaches to each collected value. -/
structure ValueMeta where
  trackName : String
  confidence : ℚ
deriving DecidableEq, Repr

/-- `ConflictResolutionOptions`. -/
structure MergeOptions where
  strategy : Strategy
  weights : Option (List (String × ℚ)) := none
  customResolver : Option (List Value → List ValueMeta → Value) := none
  confidenceExtractor : Option (ValueMeta → ℚ) := none

/-- `weights[trackName] || 1`: a missing weight, and the falsy weight `0`,
both fall back to `1`. -/
def weightOf (ws : List (String × ℚ)) (name : String) : ℚ :=
  match ws.lookup name with
  | some w => if w = 0 then 1 else w
  | none => 1

/-- First element attaining the maximum score, via a strict-greater scan —
the head of a stable descending sort, as in the source's
`sort((a, b) => b.confidence - a.confidence)` followed by `[0]`. -/
def pickFirstMax (first : Value × ℚ) (rest : List (Value × ℚ)) : Value :=
  (rest.foldl (fun best q => if q.2 > best.2 then q else best) first).1

/-- Occurrence counting of the `majority` strategy: a `Map` keyed by the
serialized value, in first-seen order, then a strict-greater scan starting
from `maxCount = 0`, `maxValue = undefined`. -/
def majorityValue (values : List Value) : Value :=
  let counts := values.foldl
    (fun (acc : List (Value × Nat)) v =>
      match acc.lookup v with
      | some _ => acc.map (fun p => if p.1 = v then (p.1, p.2 + 1) else p)
      | none => acc ++ [(v, 1)])
    []
  (counts.foldl (fun (best : Value × Nat) c => if c.2 > best.2 then c else best)
    (.undefined, 0)).1

/-- Is the value a JS number? (`typeof values[0] === 'number'`; the `nan`
sentinel is also a number in JS). -/
def Value.isNum : Value → Bool
  | .num _ => true
  | .nan => true
  | _ => false

/-- The numeric content of a value for JS arithmetic: `none` stands for the
NaN outcome of arithmetic on a non-number. -/
def Value.asNum : Value → Option ℚ
  | .num q => some q
  | _ => none

/-- One step of the weighted numeric accumulation
(`weightedSum += value * weight; totalWeight += weight`): the first
component is the running weighted sum (`none` = the NaN it becomes when a
non-numeric value is multiplied), the second the running total weight. -/
def weightedNumStep (ws : List (String × ℚ)) (acc : Option ℚ × ℚ)
    (t : Value × ValueMeta) : Option ℚ × ℚ :=
  let w := weightOf ws t.2.trackName
  (match acc.1, t.1.asNum with
    | some s, some q => some (s + q * w)
    | _, _ => none,
   acc.2 + w)

/-- One step of the non-numeric weighted scan
(`if (weight > highestWeight) { highestWeight = weight;
highestWeightValue = value }`). -/
def weightedPickStep (ws : List (String × ℚ)) (best : Value × ℚ)
    (t : Value × ValueMeta) : Value × ℚ :=
  let w := weightOf ws t.2.trackName
  if w > best.2 then (t.1, w) else best

/-- `ResultMerger.resolveConflict`. Empty and singleton value lists
short-circuit before the strategy dispatch; `weighted` without a weight map
and `custom` without a resolver throw. The weighted numeric branch computes
`Σ value·weight / Σ weight` (any non-numeric value poisons the sum to NaN,
as JS multiplication would); the non-numeric branch scans for the strictly
highest weight starting from `-1`. -/
def resolveConflict (values : List Value) (metadata : List ValueMeta)
    (o : MergeOptions) : Except String Value :=
  match values with
  | [] => .ok .undefined
  | [v] => .ok v
  | v0 :: vrest =>
    match o.strategy with
    | .cfirst => .ok v0
    | .clast => .ok ((v0 :: vrest).getLastD .undefined)
    | .mostConfident =>
      let conf : ValueMeta → ℚ := match o.confidenceExtractor with
        | some f => f
        | none => fun m => m.confidence
      let paired := (v0 :: vrest).zip (metadata.map conf)
      match paired with
      | [] => .ok .undefined
      | p :: ps => .ok (pickFirstMax p ps)
    | .majority => .ok (majorityValue (v0 :: vrest))
    | .weighted =>
      match o.weights with
      | none => .error "Weights required for weighted conflict resolution strategy"
      | some ws =>
        let terms := (v0 :: vrest).zip metadata
        if v0.isNum then
          let folded := terms.foldl (weightedNumStep ws) (some 0, 0)
          match folded.1 with
          | some s => .ok (.num (s / folded.2))
          | none => .ok .nan
        else
          .ok (terms.foldl (weightedPickStep ws) (.undefined, -1)).1
    | .custom =>
      match o.customResolver with
      | none => .error "Custom resolver required for custom conflict resolution strategy"
      | some f => .ok (f values metadata)

/-- `track.metadata?.confidence || 0.5`: missing, and the falsy `0`, fall
back to `0.5`. -/
def metaConfidence (tr : TrackResult) : ℚ :=
  match tr.metadata.confidence with
  | some c => if c = 0 then 0.5 else c
  | none => 0.5

/-- All distinct data keys across the tracks, in first-seen order
(the source's `Set` filled by iterating `trackEntries`). -/
def allDataKeys (tracks : List (String × TrackResult)) : List String :=
  (tracks.flatMap fun p => p.2.data.map Prod.fst).foldl
    (fun (acc : List String) k => if k ∈ acc then acc else acc ++ [k]) []

/-- The `(value, {trackName, confidence, ...})` pairs collected for one data
key, in track iteration order. -/
def collectKey (tracks : List (String × TrackResult)) (key : String) :
    List (Value × ValueMeta) :=
  tracks.filterMap fun p =>
    (p.2.data.lookup key).map fun v => (v, ⟨p.1, metaConfidence p.2⟩)

/-- `ResultMerger.mergeTrackData`: resolve every key present in at least one
track, skipping the reserved `tracks` key; a strategy throw propagates. -/
def mergeTrackData (tracks : List (String × TrackResult)) (o : MergeOptions) :
    Except String (List (String × Value)) :=
  (allDataKeys tracks).foldlM
    (fun (merged : List (String × Value)) key =>
      if key = "tracks" then pure merged
      else
        let pairs := collectKey tracks key
        if pairs.isEmpty then pure merged
        else do
          let v ← resolveConflict (pairs.map Prod.fst) (pairs.map Prod.snd) o
          pure (upsert merged key v))
    []

/-! ## Theorems -/

/-- Behaviour of the retry loop when every call fails with a retryable
error: it performs all remaining retries, requests one backoff delay before
each, and rethrows the last error. -/
lemma retryLoop_always_error {E A : Type} (fn : Nat → Except E A)
    (maxRetries : Nat) (d b : ℚ) (r : E → Bool) (es : Nat → E)
    (hfn : ∀ k, fn k = .error (es k)) (hr : ∀ k, r (es k) = true) :
    ∀ (remaining attempt : Nat) (lastE : E) (delays : List ℚ),
      attempt + remaining = maxRetries → 1 ≤ remaining →
      retryLoop fn maxRetries d b r remaining attempt lastE delays =
        ⟨.error (es maxRetries), maxRetries + 1,
         delays ++ (List.range remaining).map (fun j => d * b ^ (attempt + j))⟩ := by
  intro remaining
  induction remaining with
  | zero => intro attempt lastE delays _ h1; omega
  | succ n ih =>
    intro attempt lastE delays hsum _h1
    rw [retryLoop]
    simp only [hfn (attempt + 1)]
    rcases Nat.eq_zero_or_pos n with hn | hn
    · subst hn
      have hmax : maxRetries ≤ attempt + 1 := by omega
      rw [if_pos (Or.inl hmax)]
      simp only [RetryTrace.mk.injEq]
      refine ⟨?_, by omega, ?_⟩
      · rw [show attempt + 1 = maxRetries by omega]
      · rw [show List.range (0 + 1) = [0] from rfl]
        simp only [List.map_cons, List.map_nil]
        refine congrArg _ (congrArg₂ _ ?_ rfl)
        exact congrArg (fun t => d * b ^ t) (by omega)
    · have hmax : ¬ maxRetries ≤ attempt + 1 := by omega
      have hrk : ¬ r (es (attempt + 1)) = false := by simp [hr (attempt + 1)]
      rw [if_neg (by intro h; rcases h with h | h; exact hmax h; exact hrk h)]
      rw [ih (attempt + 1) (es (attempt + 1)) (delays ++ [d * b ^ (attempt + 1 - 1)])
        (by omega) hn]
      simp only [RetryTrace.mk.injEq, true_and]
      rw [List.append_assoc, List.range_succ_eq_map]
      simp only [List.map_cons, List.map_map, List.singleton_append]
      refine congrArg _ (congrArg₂ _ ?_ ?_)
      · exact congrArg (fun t => d * b ^ t) (by omega)
      · refine congrArg (fun f => List.map f (List.range n)) ?_
        funext j
        simp only [Function.comp_apply]
        exact congrArg (fun t => d * b ^ t) (by omega)

/-- Claim C8: `executeWithRetry` with `maxRetries = 3`, `retryDelay = 100`,
`backoffFactor = 2` and an always-failing retryable `fn` performs exactly 4
calls and requests delays `[100, 200, 400]` in order; generally, with
`maxRetries = m > 0` the delay before retry attempt `k` (k = 1..m) is
`retryDelay * backoffFactor ^ (k - 1)` (the list below is indexed by
`j = k - 1`), the initial call is attempt 0 and does not count against
`maxRetries` (total calls `m + 1`), and if `maxRetries ≤ 0` or an error
fails the retryability predicate, the error is rethrown immediately with no
further call and no delay. -/
theorem claim_C8 {A : Type} (fn : Nat → Except RError A) (es : Nat → RError)
    (hfn : ∀ k, fn k = .error (es k)) (hr : ∀ k, (es k).retry = true) :
    ((executeWithRetry fn 3 100 2 defaultIsRetryable).calls = 4 ∧
     (executeWithRetry fn 3 100 2 defaultIsRetryable).delays = [100, 200, 400]) ∧
    (∀ (m : Int) (d b : ℚ), 0 < m →
      executeWithRetry fn m d b defaultIsRetryable =
        ⟨.error (es m.toNat), m.toNat + 1,
         (List.range m.toNat).map (fun j => d * b ^ j)⟩) ∧
    (∀ (m : Int) (d b : ℚ) (g : RError → Bool),
      m ≤ 0 ∨ g (es 0) = false →
      executeWithRetry fn m d b g = ⟨.error (es 0), 1, []⟩) := by
  have general : ∀ (m : Int) (d b : ℚ), 0 < m →
      executeWithRetry fn m d b defaultIsRetryable =
        ⟨.error (es m.toNat), m.toNat + 1,
         (List.range m.toNat).map (fun j => d * b ^ j)⟩ := by
    intro m d b hm
    rw [executeWithRetry]
    simp only [hfn 0]
    have hnotle : ¬ m ≤ 0 := by omega
    have hr0 : ¬ defaultIsRetryable (es 0) = false := by
      simp [defaultIsRetryable, hr 0]
    rw [if_neg (by intro h; rcases h with h | h; exact hnotle h; exact hr0 h)]
    rw [retryLoop_always_error fn m.toNat d b defaultIsRetryable es hfn
      (fun k => by simp [defaultIsRetryable, hr k]) m.toNat 0 (es 0) []
      (by omega) (by omega)]
    simp
  refine ⟨?_, general, ?_⟩
  · rw [general 3 100 2 (by norm_num)]
    refine ⟨rfl, ?_⟩
    show List.map (fun j => (100 : ℚ) * 2 ^ j) (List.range (Int.toNat 3)) =
      [100, 200, 400]
    rw [show List.range (Int.toNat 3) = [0, 1, 2] from rfl]
    norm_num
  · intro m d b g hg
    rw [executeWithRetry]
    simp only [hfn 0]
    rw [if_pos hg]

/-- A network-style error that is always retryable, used to instantiate the
retry theorems. -/
def eAlwaysRetry : RError :=
  { message := "boom", code := "network_error", retry := true }

/-- Witness for C8: a concrete always-failing retryable function performs 4
calls with delays `[100, 200, 400]`. -/
theorem claim_C8_witness :
    (executeWithRetry (fun _ => (.error eAlwaysRetry : Except RError Nat))
      3 100 2 defaultIsRetryable).calls = 4 ∧
    (executeWithRetry (fun _ => (.error eAlwaysRetry : Except RError Nat))
      3 100 2 defaultIsRetryable).delays = [100, 200, 400] :=
  (claim_C8 (fun _ => .error eAlwaysRetry) (fun _ => eAlwaysRetry)
    (fun _ => rfl) (fun _ => rfl)).1

/-- When a step's `execute` rejects, `executeStepWithErrorHandling` resolves
with the failure recorded on the input state and performs exactly one
`execute` invocation, for every configuration: the inner `executeStep`
closure catches the rejection and resolves, so the retry wrapper's first
call already succeeds. -/
lemma executeStepWithErrorHandling_fail (step : EStep) (cfg : PipelineConfig)
    (state : RState) (e : RError) (hx : step.execute state = .error e) :
    executeStepWithErrorHandling step cfg state =
      (recordStepExecution state step false (some e), 1) := by
  unfold executeStepWithErrorHandling
  split
  · simp [executeWithRetry, execStepOnce, hx]
  · simp [execStepOnce, hx]

/-- Claim C5: inside the pipeline executor, a step whose `execute` rejects
(on every call — the inner closure re-executes the same function of the same
captured state) is invoked exactly once even when `retryable = true` and
`config.maxRetries > 0`: `executeStepWithErrorHandling` converts the failure
into a resolved state carrying a failed step record, so the surrounding
`executeWithRetry` observes a success on its first call, performs no retry
attempt and requests no delay. -/
theorem claim_C5 (step : EStep) (cfg : PipelineConfig) (state : RState)
    (e : RError) (hx : step.execute state = .error e) :
    executeStepWithErrorHandling step cfg state =
      (recordStepExecution state step false (some e), 1) ∧
    (executeWithRetry
        (fun _ => (Except.ok (execStepOnce step state) : Except RError RState))
        cfg.maxRetries cfg.retryDelay cfg.backoffFactor defaultIsRetryable).outcome =
      .ok (recordStepExecution state step false (some e)) ∧
    (executeWithRetry
        (fun _ => (Except.ok (execStepOnce step state) : Except RError RState))
        cfg.maxRetries cfg.retryDelay cfg.backoffFactor defaultIsRetryable).delays = [] := by
  refine ⟨executeStepWithErrorHandling_fail step cfg state e hx, ?_, rfl⟩
  simp [executeWithRetry, execStepOnce, hx]

/-- A step that always rejects, with a retryable-looking flag, used to
instantiate the per-step theorems. -/
def alwaysFailStep : EStep :=
  { name := "alwaysFail",
    execute := fun _ => .error eAlwaysRetry,
    retryable := true }

/-- Witness for C5: the always-failing retryable step under the default
configuration (`maxRetries = 3`) executes once and resolves with the failure
recorded. -/
theorem claim_C5_witness :
    executeStepWithErrorHandling alwaysFailStep {} {} =
      (recordStepExecution {} alwaysFailStep false (some eAlwaysRetry), 1) :=
  (claim_C5 alwaysFailStep {} {} eAlwaysRetry rfl).1

/-- Unfolding of `executeSteps` at a failing head step under the `rollback`
policy when the step exposes a rollback. -/
lemma executeSteps_cons_fail_rollback (cfg : PipelineConfig) (step : EStep)
    (rest : List EStep) (state : RState) (e : RError)
    (rb : RState → Except RError RState)
    (hpol : cfg.errorHandling = .rollback) (hrb : step.rollback = some rb)
    (hx : step.execute state = .error e) :
    executeSteps cfg (step :: rest) state =
      (let state1 := recordStepExecution state step false (some e)
       let state2 := match rb state1 with
         | .ok s2 => s2
         | .error re => { state1 with errors := state1.errors ++ [re] }
       if ¬cfg.continueOnError then (state2, [(step.name, state1)])
       else ((executeSteps cfg rest state2).1,
             (step.name, state1) :: (executeSteps cfg rest state2).2)) := by
  rw [executeSteps, executeStepWithErrorHandling_fail step cfg state e hx]
  simp only [recordStepExecution, List.getLastD_concat, hpol, hrb]
  rfl

/-- Claim C6: under `errorHandling = 'rollback'`, a failing step that exposes
a rollback has that rollback invoked exactly once, with the pre-failure
state: the argument is the state the step received, with only the failure's
bookkeeping appended (same `query`, `data` and `results`; the failing
`execute`'s own state changes are discarded). If the rollback itself fails,
its error is folded into `state.errors` alongside the original failure.
Afterwards the pipeline halts — the rollback-call trace is exactly this one
call and `rest` is never executed — unless `continueOnError` is true, in
which case execution proceeds to the next step from the rolled-back state. -/
theorem claim_C6 (cfg : PipelineConfig) (step : EStep) (rest : List EStep)
    (state : RState) (e : RError) (rb : RState → Except RError RState)
    (hpol : cfg.errorHandling = .rollback) (hrb : step.rollback = some rb)
    (hx : step.execute state = .error e) :
    ((recordStepExecution state step false (some e)).query = state.query ∧
     (recordStepExecution state step false (some e)).data = state.data ∧
     (recordStepExecution state step false (some e)).results = state.results) ∧
    (cfg.continueOnError = false →
      (∀ s2, rb (recordStepExecution state step false (some e)) = .ok s2 →
        executeSteps cfg (step :: rest) state =
          (s2, [(step.name, recordStepExecution state step false (some e))])) ∧
      (∀ re, rb (recordStepExecution state step false (some e)) = .error re →
        executeSteps cfg (step :: rest) state =
          ({ recordStepExecution state step false (some e) with
             errors := state.errors ++ [e, re] },
           [(step.name, recordStepExecution state step false (some e))]))) ∧
    (cfg.continueOnError = true →
      (∀ s2, rb (recordStepExecution state step false (some e)) = .ok s2 →
        executeSteps cfg (step :: rest) state =
          ((executeSteps cfg rest s2).1,
           (step.name, recordStepExecution state step false (some e))
             :: (executeSteps cfg rest s2).2)) ∧
      (∀ re, rb (recordStepExecution state step false (some e)) = .error re →
        executeSteps cfg (step :: rest) state =
          ((executeSteps cfg rest
              { recordStepExecution state step false (some e) with
                errors := state.errors ++ [e, re] }).1,
           (step.name, recordStepExecution state step false (some e))
             :: (executeSteps cfg rest
                  { recordStepExecution state step false (some e) with
                    errors := state.errors ++ [e, re] }).2))) := by
  have hunfold := executeSteps_cons_fail_rollback cfg step rest state e rb hpol hrb hx
  have herr : ∀ re : RError,
      ({ recordStepExecution state step false (some e) with
         errors := (recordStepExecution state step false (some e)).errors ++ [re] }
        : RState) =
      { recordStepExecution state step false (some e) with
        errors := state.errors ++ [e, re] } := by
    intro re
    simp [recordStepExecution]
  refine ⟨⟨rfl, rfl, rfl⟩, ?_, ?_⟩
  · intro hco
    constructor
    · intro s2 hs2
      rw [hunfold]
      simp only [hs2, hco]
      rfl
    · intro re hre
      rw [hunfold]
      simp only [hre, hco]
      rw [if_pos (by simp : ¬false = true)]
      simp [recordStepExecution, List.append_assoc]
  · intro hco
    constructor
    · intro s2 hs2
      rw [hunfold]
      simp only [hs2, hco]
      rfl
    · intro re hre
      rw [hunfold]
      simp only [hre, hco]
      rw [if_neg (by simp : ¬¬True)]
      simp [recordStepExecution, List.append_assoc]

/-- A marker state returned by the witness rollback. -/
def rolledBackState : RState := { query := "rolled-back" }

/-- A failing step exposing a rollback, used to instantiate C6. -/
def failingRollbackStep : EStep :=
  { name := "failing",
    execute := fun _ => .error eAlwaysRetry,
    rollback := some (fun _ => .ok rolledBackState) }

/-- The `rollback` error-handling configuration used to instantiate C6. -/
def rollbackCfg : PipelineConfig := { errorHandling := .rollback }

/-- Witness for C6: a concrete one-step pipeline under the rollback policy
invokes the failing step's rollback exactly once, with the pre-failure state
plus the failure record, and halts with the rolled-back state. -/
theorem claim_C6_witness :
    executeSteps rollbackCfg [failingRollbackStep] {} =
      (rolledBackState,
       [("failing", recordStepExecution {} failingRollbackStep false
           (some eAlwaysRetry))]) :=
  ((claim_C6 rollbackCfg failingRollbackStep [] {} eAlwaysRetry
      (fun _ => .ok rolledBackState) rfl rfl rfl).2.1 rfl).1 rolledBackState rfl

/-- Claim C7: on a run of `executePipeline` whose global timer expires before
the steps complete, a timeout error is appended to the state's errors and
the partial state is returned — the call resolves with a state rather than
rejecting (the model's `executePipeline` is total, mirroring the source
catch that swallows the race's rejection) — and on every exit path (steps
settled first, or timer fired first) the timer handle is cleared exactly
once in the `finally` and `metadata.endTime` is stamped exactly once. -/
theorem claim_C7 (initialState : RState) (steps : List EStep)
    (cfg : PipelineConfig) :
    (∀ timedOut : Bool,
      (executePipeline initialState steps cfg timedOut).timerCleared = 1 ∧
      (executePipeline initialState steps cfg timedOut).endTimeWrites = 1 ∧
      (executePipeline initialState steps cfg timedOut).returned.metadata.endTime
        = some 1) ∧
    (executePipeline initialState steps cfg true).returned.errors =
      initialState.errors ++ [pipelineTimeoutError cfg.timeout] := by
  constructor
  · intro timedOut
    cases timedOut <;> simp [executePipeline]
  · simp [executePipeline]

/-- Claim C3 (refuted, code bug): the engine is specified never to mutate a
state it received, but on the timeout path `executePipeline` executes
`state.errors.push(researchError)` on its working copy
`{...initialState, metadata: {...}}`, whose `errors` field is the caller's
own array object; the caller's `initialState.errors` observably gains the
timeout error. Here: a run on an initial state with no errors leaves the
caller's errors array holding the pipeline timeout error. -/
theorem claim_C3 :
    (executePipeline {} [] {} true).callerErrorsAfter =
      [pipelineTimeoutError 300000] ∧
    (RState.mk "" {} [] [] {}).errors = [] ∧
    (executePipeline {} [] {} true).callerErrorsAfter ≠
      (RState.mk "" {} [] [] {}).errors := by
  refine ⟨rfl, rfl, ?_⟩
  simp [executePipeline]

/-- Track options for a track whose single step always rejects, with the
default `continueOnError = false` and no track-level retry. -/
def failTrackOpts : TrackOptions :=
  { name := "t", steps := [alwaysFailStep] }

/-- Claim C2 (refuted, code bug): on an uncaught track failure the runner
does build the best-effort failed `TrackResult` (`completed = false`) and a
state recording it under `data.tracks["t"]` — the model's
`recordedFailureState`, the source's `updatedState` ("Add the failed track
to state data before throwing", track.ts:336-352) — but then, with no
track-level retry configured, it throws without using that state: the
outcome carries only the error, and since states are never shared by
reference, a caller that catches the rejection still holds its original
state, whose `data.tracks` has no `"t"` entry. The claim says the caller
can read `state.data.tracks[name]` after catching. -/
theorem claim_C2 :
    (executeTrackStep {} failTrackOpts).outcome =
      .error (trackFailedError "t" "alwaysFail" "boom") ∧
    ((executeTrackStep {} failTrackOpts).recordedFailureState.map
      (fun u => u.data.tracks.map (fun p => (p.1, p.2.completed)))) =
      some [("t", false)] ∧
    ({} : RState).data.tracks = [] := by
  refine ⟨rfl, rfl, rfl⟩

/-- The collected track names of a parallel run's resolved state, `none` on
a rejection. -/
def collectedTrackNames (r : Except RError RState) : Option (List String) :=
  match r with
  | .ok s => some (s.data.tracks.map Prod.fst)
  | .error _ => none

/-- A track step that records a completed `TrackResult` under its own name,
as the track runner does on success. -/
def okTrackStep (nm : String) : EStep :=
  { name := nm,
    execute := fun s => .ok { s with
      data := { s.data with
        tracks := upsert s.data.tracks nm { name := nm } } } }

/-- A track step that rejects. -/
def rejectTrackStep : EStep :=
  { name := "B", execute := fun _ => .error eAlwaysRetry }

/-- Three parallel tracks — A and C complete, B rejects — under the default
`continueOnError = true`, with a merge hook that returns an empty merge. -/
def parOptsCex : ParallelOptions :=
  { tracks := [okTrackStep "A", rejectTrackStep, okTrackStep "C"],
    mergeFn := fun _ _ => .ok {} }

/-- Counterexample to claim C1 as stated: in a 3-track parallel run with one
rejecting track and `continueOnError = true`, the returned state's
`data.tracks` has 2 entries (`A` and `C`), not one per track — the rejecting
track gets no synthetic failed `TrackResult` slot. -/
theorem claim_C1_counterexample :
    collectedTrackNames (executeParallelStep {} parOptsCex false false) =
      some ["A", "C"] ∧
    (["A", "C"] : List String).length ≠ 3 := by
  exact ⟨rfl, by decide⟩

/-- Claim C1 (amended): in a parallel run with `continueOnError = true`
(default) over three tracks of which the second rejects and the others
complete (each recording its own `TrackResult` under its name), the returned
state's `data.tracks` has one entry per *successful* track — the rejecting
track contributes no slot — the rejection is appended to the state's errors
(inside the per-track error state, whose errors are folded into the result),
the merge hook is applied to exactly the successful tracks' results (so the
merged result reflects only them), and the success statistics are computed
over the 2 collected tracks. -/
theorem claim_C1 (state : RState) (A B C : EStep) (sA sC : RState)
    (trA trC : TrackResult) (eB : RError)
    (mergeFn : List (String × TrackResult) → RState → Except RError MergeOut)
    (m : MergeOut)
    (hA : A.execute state = .ok sA) (hB : B.execute state = .error eB)
    (hC : C.execute state = .ok sC)
    (hsA : sA.data.tracks = [("A", trA)])
    (hsC : sC.data.tracks = [("C", trC)])
    (hst : state.data.tracks = [])
    (hm : mergeFn [("A", trA), ("C", trC)] state = .ok m)
    (hcA : trA.completed = true) (hcC : trC.completed = true) :
    (executeParallelStep state { tracks := [A, B, C], mergeFn := mergeFn }
        false false).map (fun out => out.data.tracks) =
      .ok [("A", trA), ("C", trC)] ∧
    (executeParallelStep state { tracks := [A, B, C], mergeFn := mergeFn }
        false false).map (fun out => out.data.parallelMerged) = .ok (some m) ∧
    (executeParallelStep state { tracks := [A, B, C], mergeFn := mergeFn }
        false false).map (fun out => out.errors) =
      .ok (((state.errors ++ sA.errors) ++ (state.errors ++ [eB]))
        ++ sC.errors) ∧
    (executeParallelStep state { tracks := [A, B, C], mergeFn := mergeFn }
        false false).map (fun out => out.metadata.parallelTracks) =
      .ok (some ⟨2, 2, 0, 1⟩) := by
  have hup : upsert (upsert ([] : List (String × TrackResult)) "A" trA) "C" trC
      = [("A", trA), ("C", trC)] := by
    simp [upsert]
  refine ⟨?_, ?_, ?_, ?_⟩ <;>
    simp [executeParallelStep, handleTrackOutcome, hA, hB, hC, firstRejection,
      resolvedStates, collectTrackState, hst, hsA, hsC, upsert, hm, hcA, hcC,
      Except.map, ParallelStats.mk.injEq]

/-- The completed `TrackResult` recorded by `okTrackStep "A"`. -/
def trForA : TrackResult := { name := "A" }

/-- The completed `TrackResult` recorded by `okTrackStep "C"`. -/
def trForC : TrackResult := { name := "C" }

/-- The state `okTrackStep "A"` resolves with on the empty input state. -/
def stateAfterA : RState := { data := { tracks := [("A", trForA)] } }

/-- The state `okTrackStep "C"` resolves with on the empty input state. -/
def stateAfterC : RState := { data := { tracks := [("C", trForC)] } }

/-- Witness for C1 (amended): the concrete 3-track run of
`claim_C1_counterexample` instantiates the amended theorem — the collected
tracks map holds exactly the two successful tracks. -/
theorem claim_C1_witness :
    (executeParallelStep {}
        { tracks := [okTrackStep "A", rejectTrackStep, okTrackStep "C"],
          mergeFn := fun _ _ => .ok {} } false false).map
      (fun out => out.data.tracks) = .ok [("A", trForA), ("C", trForC)] :=
  (claim_C1 {} (okTrackStep "A") rejectTrackStep (okTrackStep "C")
    stateAfterA stateAfterC trForA trForC eAlwaysRetry
    (fun _ _ => .ok {}) {} rfl rfl rfl rfl rfl rfl rfl rfl rfl).1

/-- Looking a key up right after upserting it yields the new value. -/
lemma lookup_upsert {α : Type} (l : List (String × α)) (k : String) (v : α) :
    (upsert l k v).lookup k = some v := by
  induction l with
  | nil => simp [upsert]
  | cons p rest ih =>
    by_cases h : p.1 = k
    · simp [upsert, h]
    · simp only [upsert]
      rw [if_neg h]
      have hne : (k == p.1) = false := by
        simp [BEq.beq]
        intro hk
        exact h hk.symm
      simp [List.lookup, hne, ih]

/-- The repeated-steps loop never raises a fatal error when the loop is
allowed to proceed (`continueOnError = true`) or every repeated step
resolves. -/
lemma runRepeatSteps_no_fatal (co : Bool) (iter : Nat) (condState : RState) :
    ∀ (l : List EStep) (current : RState) (errs : List RError),
      (co = true ∨ ∀ st ∈ l, ∀ s, (st.execute s).isOk = true) →
      (runRepeatSteps co iter condState l current errs).2.2 = none := by
  intro l
  induction l with
  | nil => intro current errs _; rfl
  | cons st rest ih =>
    intro current errs hok
    rw [runRepeatSteps]
    rcases hx : st.execute condState with e | s
    · rcases hok with hco | hall
      · subst hco
        simp only [if_pos rfl]
        exact ih current (errs ++ [e]) (Or.inl rfl)
      · exact absurd (hall st (by simp) condState) (by simp [hx, Except.isOk, Except.toBool])
    · exact ih s errs (by
        rcases hok with hco | hall
        · exact Or.inl hco
        · exact Or.inr (fun st' hst' s' => hall st' (by simp [hst']) s'))

/-- When the condition step always resolves without ever recording a passing
evaluation, and the repeated steps cannot abort the loop, the do-while runs
for its full fuel: the iteration counter advances by `fuel`, the condition
is never met, and no fatal error is raised. -/
lemma repeatLoop_never_pass (cond : EStep) (steps : List EStep) (co : Bool)
    (condOut : RState → RState)
    (hcond : ∀ s, cond.execute s = .ok (condOut s))
    (hnp : ∀ s, lastEvalPassed (condOut s) = false)
    (hsteps : co = true ∨ ∀ st ∈ steps, ∀ s, (st.execute s).isOk = true) :
    ∀ (fuel iters : Nat) (current : RState) (errs : List RError),
      (repeatLoop cond steps co fuel iters current errs).iterations =
        iters + fuel ∧
      (repeatLoop cond steps co fuel iters current errs).conditionMet = false ∧
      (repeatLoop cond steps co fuel iters current errs).fatal = none := by
  intro fuel
  induction fuel with
  | zero => intro iters current errs; exact ⟨rfl, rfl, rfl⟩
  | succ n ih =>
    intro iters current errs
    rw [repeatLoop]
    simp only [hcond current, hnp current, Bool.false_eq_true, if_false]
    rcases hrun : runRepeatSteps co (iters + 1) (condOut current) steps current
        errs with ⟨cur', errs', fat⟩
    have hfat : fat = none := by
      have := runRepeatSteps_no_fatal co (iters + 1) (condOut current) steps
        current errs hsteps
      rw [hrun] at this
      exact this
    subst hfat
    have := ih (iters + 1) cur' errs'
    refine ⟨?_, this.2.1, this.2.2⟩
    rw [this.1]
    omega

/-- Claim C9: a `repeatUntil` run with `maxIterations = N` whose condition
step always resolves but never records a passing evaluation, and whose
repeated steps cannot abort the loop (every step resolves, or the loop-level
`continueOnError` is set): with `throwOnMaxIterations = true` it throws a
`MaxIterationsError` after exactly `N` iterations; with `false` it returns a
state whose iteration bookkeeping under the condition step's name records
`completed = N`, `conditionMet = false` (and `maxReached`, the error flag
and count), and all intra-loop step errors collected by the loop are
appended to the returned state's error list. -/
theorem claim_C9 (cond : EStep) (steps : List EStep)
    (opts : RepeatUntilOptions) (state : RState) (condOut : RState → RState)
    (hcond : ∀ s, cond.execute s = .ok (condOut s))
    (hnp : ∀ s, lastEvalPassed (condOut s) = false)
    (hsteps : opts.continueOnError = true ∨
      ∀ st ∈ steps, ∀ s, (st.execute s).isOk = true) :
    (repeatUntilRun cond steps opts state).conditionRuns =
      opts.maxIterations ∧
    (opts.throwOnMaxIterations = true →
      (repeatUntilRun cond steps opts state).outcome =
        .error (maxIterationsError opts.maxIterations)) ∧
    (opts.throwOnMaxIterations = false →
      ∃ fs, (repeatUntilRun cond steps opts state).outcome = .ok fs ∧
        fs.data.iterations.lookup cond.name =
          some ⟨opts.maxIterations, false, true,
            !(repeatLoop cond steps opts.continueOnError opts.maxIterations
                0 state []).iterationErrors.isEmpty,
            (repeatLoop cond steps opts.continueOnError opts.maxIterations
                0 state []).iterationErrors.length⟩ ∧
        fs.errors =
          (repeatLoop cond steps opts.continueOnError opts.maxIterations
              0 state []).current.errors ++
          (repeatLoop cond steps opts.continueOnError opts.maxIterations
              0 state []).iterationErrors) := by
  have hacc := repeatLoop_never_pass cond steps opts.continueOnError condOut
    hcond hnp hsteps opts.maxIterations 0 state []
  rcases hl : repeatLoop cond steps opts.continueOnError opts.maxIterations
      0 state [] with ⟨cur, ierrs, iters, met, fat⟩
  rw [hl] at hacc
  obtain ⟨hit, hmet, hfat⟩ := hacc
  simp only at hit hmet hfat
  subst hmet hfat
  have hit' : iters = opts.maxIterations := by omega
  subst hit'
  refine ⟨?_, ?_, ?_⟩
  · rw [repeatUntilRun, hl]
    by_cases ht : opts.throwOnMaxIterations <;> simp [ht]
  · intro ht
    rw [repeatUntilRun, hl]
    simp [ht]
  · intro ht
    rw [repeatUntilRun, hl]
    simp only [ht]
    refine ⟨_, rfl, ?_, ?_⟩
    · show (upsert cur.data.iterations cond.name _).lookup cond.name = _
      rw [lookup_upsert]
      simp [hl, Nat.le_refl]
    · simp [hl]

/-- A condition step whose evaluation never passes (it stores a single
failing evaluation record, whatever the input). -/
def condNeverPass : EStep :=
  { name := "cond",
    execute := fun s => .ok { s with
      data := { s.data with evaluations := [("crit", ⟨false⟩)] } } }

/-- The state `condNeverPass` resolves with. -/
def condNeverPassOut (s : RState) : RState :=
  { s with data := { s.data with evaluations := [("crit", ⟨false⟩)] } }

/-- A repeated step that always resolves with its input unchanged. -/
def noopStep : EStep := { name := "noop", execute := fun s => .ok s }

/-- Witness for C9: with `maxIterations = 2`, a never-passing condition and
a trivial repeated step, `throwOnMaxIterations = true` throws the
`MaxIterationsError` after exactly 2 iterations. -/
theorem claim_C9_witness :
    (repeatUntilRun condNeverPass [noopStep]
        { maxIterations := 2, throwOnMaxIterations := true } {}).conditionRuns
      = 2 ∧
    (repeatUntilRun condNeverPass [noopStep]
        { maxIterations := 2, throwOnMaxIterations := true } {}).outcome =
      .error (maxIterationsError 2) := by
  have h := claim_C9 condNeverPass [noopStep]
    { maxIterations := 2, throwOnMaxIterations := true } {} condNeverPassOut
    (fun _ => rfl) (fun _ => rfl)
    (Or.inr (by intro st hst s; simp at hst; subst hst; rfl))
  exact ⟨h.1, h.2.1 rfl⟩

/-- A repeated step writing the data key `a`. -/
def writeAStep : EStep :=
  { name := "sA",
    execute := fun s => .ok { s with
      data := { s.data with entries := upsert s.data.entries "a" (.num 1) } } }

/-- A repeated step writing the data key `b`. -/
def writeBStep : EStep :=
  { name := "sB",
    execute := fun s => .ok { s with
      data := { s.data with entries := upsert s.data.entries "b" (.num 2) } } }

/-- Claim C4 (refuted, code bug): within a `repeatUntil` iteration whose
condition does not pass, the repeated steps are supposed to compose
sequentially — the second step receiving the first step's output — so after
one iteration of `[writeAStep, writeBStep]` the resulting state should hold
both `a` and `b`. The code instead passes the condition step's output to
every repeated step (`currentState = await step.execute(conditionState)`,
flowControl.ts:333), discarding all but the last step's output: the final
state holds `b` but not `a`. -/
theorem claim_C4 :
    ((repeatUntilRun condNeverPass [writeAStep, writeBStep]
        { maxIterations := 1 } {}).outcome.map
      (fun fs => (fs.data.entries.lookup "a", fs.data.entries.lookup "b"))) =
      .ok (none, some (.num 2)) := by
  rfl

/-- The weighted numeric accumulation over all-numeric values computes the
running weighted sum and total weight. -/
lemma weightedNumStep_foldl (ws : List (String × ℚ)) :
    ∀ (l : List (Value × ValueMeta)) (s t : ℚ),
      (∀ p ∈ l, ∃ q, p.1 = Value.num q) →
      l.foldl (weightedNumStep ws) (some s, t) =
        (some (s + (l.map
            (fun p => (p.1.asNum.getD 0) * weightOf ws p.2.trackName)).sum),
         t + (l.map (fun p => weightOf ws p.2.trackName)).sum) := by
  intro l
  induction l with
  | nil => intro s t _; simp
  | cons p rest ih =>
    intro s t hnum
    obtain ⟨q, hq⟩ := hnum p (by simp)
    rw [List.foldl_cons]
    rw [show weightedNumStep ws (some s, t) p =
        (some (s + q * weightOf ws p.2.trackName),
         t + weightOf ws p.2.trackName) by
      simp [weightedNumStep, hq, Value.asNum]]
    rw [ih _ _ (fun r hr => hnum r (by simp [hr]))]
    simp [hq, Value.asNum]
    constructor <;> ring

/-- Once the scan's best weight dominates every remaining weight, the scan
keeps its accumulator. -/
lemma weightedPickStep_foldl_keep (ws : List (String × ℚ)) :
    ∀ (l : List (Value × ValueMeta)) (acc : Value × ℚ),
      (∀ p ∈ l, weightOf ws p.2.trackName ≤ acc.2) →
      l.foldl (weightedPickStep ws) acc = acc := by
  intro l
  induction l with
  | nil => intro acc _; rfl
  | cons p rest ih =>
    intro acc hle
    rw [List.foldl_cons]
    rw [show weightedPickStep ws acc p = acc by
      simp only [weightedPickStep]
      rw [if_neg (by simp [not_lt.mpr (hle p (by simp))])]]
    exact ih acc (fun r hr => hle r (by simp [hr]))

/-- The non-numeric weighted scan returns the value of the single
highest-weighted entry: an entry attaining the strictly dominant weight. -/
lemma weightedPickStep_foldl_unique (ws : List (String × ℚ)) :
    ∀ (l : List (Value × ValueMeta)) (acc : Value × ℚ) (vstar : Value)
      (wstar : ℚ),
      (∃ p ∈ l, p.1 = vstar ∧ weightOf ws p.2.trackName = wstar) →
      (∀ p ∈ l, weightOf ws p.2.trackName ≤ wstar ∧
        (weightOf ws p.2.trackName = wstar → p.1 = vstar)) →
      acc.2 < wstar →
      l.foldl (weightedPickStep ws) acc = (vstar, wstar) := by
  intro l
  induction l with
  | nil => intro acc vstar wstar hmem _ _; simp at hmem
  | cons p rest ih =>
    intro acc vstar wstar hmem hmax hacc
    rw [List.foldl_cons]
    rcases lt_or_eq_of_le (hmax p (by simp)).1 with hlt | heq
    · have hacc' : (weightedPickStep ws acc p).2 < wstar := by
        simp only [weightedPickStep]
        split
        · exact hlt
        · exact hacc
      have hmem' : ∃ r ∈ rest, r.1 = vstar ∧ weightOf ws r.2.trackName = wstar := by
        obtain ⟨r, hr, hr1, hr2⟩ := hmem
        rcases List.mem_cons.mp hr with hrp | hrr
        · subst hrp; exact absurd hr2 (ne_of_lt hlt)
        · exact ⟨r, hrr, hr1, hr2⟩
      exact ih _ vstar wstar hmem' (fun r hr => hmax r (by simp [hr])) hacc'
    · have hp1 : p.1 = vstar := (hmax p (by simp)).2 heq
      have hstep : weightedPickStep ws acc p = (vstar, wstar) := by
        simp only [weightedPickStep]
        rw [if_pos (by rw [heq]; exact hacc)]
        rw [hp1, heq]
      rw [hstep]
      exact weightedPickStep_foldl_keep ws rest (vstar, wstar)
        (fun r hr => by
          have := (hmax r (by simp [hr])).1
          simpa using this)

/-- Track `A` contributing the numeric value 10 for key `score`. -/
def weightTrackA : TrackResult := { name := "A", data := [("score", .num 10)] }

/-- Track `B` contributing the numeric value 20 for key `score`. -/
def weightTrackB : TrackResult := { name := "B", data := [("score", .num 20)] }

/-- Weighted merge options with weights `{A: 1, B: 3}`. -/
def weightsAB : MergeOptions :=
  { strategy := .weighted, weights := some [("A", 1), ("B", 3)] }

/-- Claim C10: the `weighted` strategy requires an explicit weight map and
throws when it is missing while two or more tracks contribute a value (a
single contributor short-circuits before the strategy); for numeric values
it returns the weighted mean `Σ(value·weight)/Σ(weight)` — in particular
`mergeTrackData` with weights `{A: 1, B: 3}` and values `{A: 10, B: 20}`
yields `17.5` — and for non-numeric values it returns the value owned by
the single highest-weighted track (the entry whose weight strictly
dominates every other). -/
theorem claim_C10 :
    (∀ (v0 v1 : Value) (vrest : List Value) (ms : List ValueMeta)
       (cr : Option (List Value → List ValueMeta → Value))
       (ce : Option (ValueMeta → ℚ)),
      resolveConflict (v0 :: v1 :: vrest) ms
        { strategy := .weighted, weights := none, customResolver := cr,
          confidenceExtractor := ce } =
        .error "Weights required for weighted conflict resolution strategy") ∧
    (∀ (v0 v1 : Value) (vrest : List Value) (ms : List ValueMeta)
       (ws : List (String × ℚ))
       (cr : Option (List Value → List ValueMeta → Value))
       (ce : Option (ValueMeta → ℚ)),
      (∀ v ∈ v0 :: v1 :: vrest, ∃ q, v = Value.num q) →
      resolveConflict (v0 :: v1 :: vrest) ms
        { strategy := .weighted, weights := some ws, customResolver := cr,
          confidenceExtractor := ce } =
        .ok (.num (
          (((v0 :: v1 :: vrest).zip ms).map
            (fun p => (p.1.asNum.getD 0) * weightOf ws p.2.trackName)).sum /
          (((v0 :: v1 :: vrest).zip ms).map
            (fun p => weightOf ws p.2.trackName)).sum))) ∧
    (∀ (v0 v1 : Value) (vrest : List Value) (ms : List ValueMeta)
       (ws : List (String × ℚ))
       (cr : Option (List Value → List ValueMeta → Value))
       (ce : Option (ValueMeta → ℚ)) (vstar : Value) (wstar : ℚ),
      v0.isNum = false → -1 < wstar →
      (∃ p ∈ (v0 :: v1 :: vrest).zip ms,
        p.1 = vstar ∧ weightOf ws p.2.trackName = wstar) →
      (∀ p ∈ (v0 :: v1 :: vrest).zip ms,
        weightOf ws p.2.trackName ≤ wstar ∧
        (weightOf ws p.2.trackName = wstar → p.1 = vstar)) →
      resolveConflict (v0 :: v1 :: vrest) ms
        { strategy := .weighted, weights := some ws, customResolver := cr,
          confidenceExtractor := ce } = .ok vstar) ∧
    mergeTrackData [("A", weightTrackA), ("B", weightTrackB)] weightsAB =
      .ok [("score", .num 17.5)] := by
  refine ⟨?_, ?_, ?_, ?_⟩
  · intro v0 v1 vrest ms cr ce
    rfl
  · intro v0 v1 vrest ms ws cr ce hnum
    obtain ⟨q0, hq0⟩ := hnum v0 (by simp)
    have hzip : ∀ p ∈ (v0 :: v1 :: vrest).zip ms, ∃ q, p.1 = Value.num q := by
      intro p hp
      exact hnum p.1 (List.of_mem_zip hp).1
    simp only [resolveConflict]
    rw [if_pos (by rw [hq0]; rfl)]
    rw [weightedNumStep_foldl ws ((v0 :: v1 :: vrest).zip ms) 0 0 hzip]
    simp
  · intro v0 v1 vrest ms ws cr ce vstar wstar hv0 hwpos hmem hmax
    simp only [resolveConflict]
    rw [if_neg (by rw [hv0]; simp)]
    rw [weightedPickStep_foldl_unique ws ((v0 :: v1 :: vrest).zip ms)
      (.undefined, -1) vstar wstar hmem hmax hwpos]
  · simp [mergeTrackData, allDataKeys, collectKey, resolveConflict,
      weightTrackA, weightTrackB, weightsAB, upsert, metaConfidence,
      weightedNumStep, weightOf, Value.isNum, Value.asNum, List.lookup]
    norm_num

/-- A low-weighted non-numeric contribution. -/
def lowMeta : ValueMeta := { trackName := "A", confidence := 0.5 }

/-- A high-weighted non-numeric contribution. -/
def highMeta : ValueMeta := { trackName := "B", confidence := 0.5 }

/-- Witness for C10: the missing-weights error, the non-numeric
highest-weight pick (weights `{A: 1, B: 5}` pick B's value), and the
concrete weighted mean 17.5, all at concrete inputs. -/
theorem claim_C10_witness :
    resolveConflict [.str "x", .str "y"] [lowMeta, highMeta]
      { strategy := .weighted, weights := none } =
      .error "Weights required for weighted conflict resolution strategy" ∧
    resolveConflict [.str "x", .str "y"] [lowMeta, highMeta]
      { strategy := .weighted, weights := some [("A", 1), ("B", 5)] } =
      .ok (.str "y") ∧
    mergeTrackData [("A", weightTrackA), ("B", weightTrackB)] weightsAB =
      .ok [("score", .num 17.5)] := by
  refine ⟨claim_C10.1 (.str "x") (.str "y") [] [lowMeta, highMeta] none none,
    ?_, claim_C10.2.2.2⟩
  refine claim_C10.2.2.1 (.str "x") (.str "y") [] [lowMeta, highMeta]
    [("A", 1), ("B", 5)] none none (.str "y") 5 rfl (by norm_num) ?_ ?_
  · exact ⟨(.str "y", highMeta), by simp [highMeta, weightOf, List.lookup]⟩
  · intro p hp
    simp only [List.zip_cons_cons, List.zip_nil_left, List.mem_cons,
      List.not_mem_nil, or_false] at hp
    rcases hp with h | h <;> subst h <;>
      simp [lowMeta, highMeta, weightOf, List.lookup]

end RPSdk
